import Mathlib

/-!
Verification of the GoFomentos ingestion pipeline against its specification.

The Python services are shallowly embedded: Python `str` is modelled as
`String` (or `List Char` where character-level slicing is needed), Python
numbers as `ℚ`, Python `dict`s of extracted variables as association lists
with unique keys, and each service method as an executable Lean function
translated line by line from `backend/app/...`.  Timestamps
(`datetime.utcnow()`) carry no information the properties need; they are
modelled as a Boolean "was set" flag.
-/

namespace GoFomentos

/-- Python runtime values as they occur in the extractor's variable
dictionaries: `None`, `str`, numbers (`int`/`float`, modelled as `ℚ`)
and `bool`.  In Python `bool` is a subclass of `int`, which matters for
`isinstance(value, (int, float))` and for `==` against `0`. -/
inductive PyValue where
  | null
  | str (s : String)
  | num (q : ℚ)
  | bool (b : Bool)
deriving DecidableEq

/-- Python `==` restricted to the value shapes above.  `True == 1` and
`False == 0` hold because `bool` is an `int` subclass; values of
unrelated types compare unequal; `None` is only equal to itself. -/
def pyEq : PyValue → PyValue → Bool
  | .null, .null => true
  | .str a, .str b => a == b
  | .num a, .num b => a == b
  | .bool a, .bool b => a == b
  | .bool a, .num b => (if a then (1 : ℚ) else 0) == b
  | .num a, .bool b => a == (if b then (1 : ℚ) else 0)
  | _, _ => false

/-- `isinstance(v, str)`. -/
def isPyStr : PyValue → Bool
  | .str _ => true
  | _ => false

/-- `isinstance(v, (int, float))`; `True`/`False` are instances of `int`. -/
def isPyNum : PyValue → Bool
  | .num _ => true
  | .bool _ => true
  | _ => false

/-- `len(v)` for a string value (0 otherwise; the code only calls it on strings). -/
def pyStrLen : PyValue → Nat
  | .str s => s.length
  | _ => 0

/-- Python truthiness for the value shapes above. -/
def pyTruthy : PyValue → Bool
  | .null => false
  | .str s => !(s == "")
  | .num q => !(q == 0)
  | .bool b => b

/-- A Python `dict` of extracted variables: an association list.  The real
dicts have unique keys; theorems that need this carry a `Nodup` hypothesis. -/
abbrev Obj := List (String × PyValue)

/-- `d.get(k)`: returns `None` both when the key is absent and when the
stored value is `None` — exactly the two cases the merge code folds together. -/
def dictGet (d : Obj) (k : String) : PyValue :=
  match d.find? (fun p => p.1 == k) with
  | some p => p.2
  | none => .null

/-- `d[k] = v`: replace the first binding of `k`, or append a new one. -/
def dictSet : Obj → String → PyValue → Obj
  | [], k, v => [(k, v)]
  | p :: rest, k, v => if p.1 == k then (k, v) :: rest else p :: dictSet rest k v

/-- One iteration of the loop body of
`OpenAIExtractorService._merge_variables` (the handling of a single
`(key, value)` item of `new`), translated clause by clause from
`openai_extractor_service.py` lines 74–91. -/
def mergeStep (a : Obj) (k : String) (v : PyValue) : Obj :=
  -- `if key in ["link", "uuid"]: continue`
  if k = "link" ∨ k = "uuid" then a
  -- `if value is not None and value != ""` (nothing happens when it fails)
  else if v = PyValue.null ∨ pyEq v (.str "") = true then a
  -- `if accumulated.get(key) is None or accumulated.get(key) == ""`
  else if dictGet a k = PyValue.null ∨ pyEq (dictGet a k) (.str "") = true then dictSet a k v
  -- `elif isinstance(value, str) and isinstance(accumulated.get(key), str)`
  else if isPyStr v = true ∧ isPyStr (dictGet a k) = true then
    (if pyStrLen (dictGet a k) < pyStrLen v then dictSet a k v else a)
  -- `elif isinstance(value, (int, float)) and value != 0`
  else if isPyNum v = true ∧ pyEq v (.num 0) = false then
    (if pyEq (dictGet a k) (.num 0) = true ∨ dictGet a k = PyValue.null then dictSet a k v else a)
  else a

/-- `OpenAIExtractorService._merge_variables(accumulated, new)`:
fold of the loop body over the items of `new`. -/
def mergeVariables (accumulated new : Obj) : Obj :=
  new.foldl (fun a p => mergeStep a p.1 p.2) accumulated

theorem mergeStep_of_get_eq (a : Obj) (k : String) (v : PyValue)
    (h : dictGet a k = v) : mergeStep a k v = a := by
  unfold mergeStep
  rw [h]
  split_ifs with h1 h2 h3 h4 h5 h6 <;> try rfl
  · exact absurd h4 (lt_irrefl _)
  · rcases h6 with h6 | h6
    · simp [h5.2] at h6
    · exact absurd (Or.inl h6) h2

theorem dictGet_mem_nodup (a : Obj) (k : String) (v : PyValue)
    (hnd : (a.map Prod.fst).Nodup) (hm : (k, v) ∈ a) : dictGet a k = v := by
  induction a with
  | nil => cases hm
  | cons p rest ih =>
    rcases List.mem_cons.mp hm with h | h
    · subst h
      simp [dictGet, List.find?]
    · rw [List.map_cons] at hnd
      have hk : k ∈ rest.map Prod.fst := List.mem_map.mpr ⟨(k, v), h, rfl⟩
      have hne : p.1 ≠ k := fun he => (List.nodup_cons.mp hnd).1 (he ▸ hk)
      have hstep : dictGet (p :: rest) k = dictGet rest k := by
        simp [dictGet, List.find?, beq_eq_false_iff_ne.mpr hne]
      rw [hstep]
      exact ih (List.nodup_cons.mp hnd).2 h

theorem mergeVariables_no_write (a new : Obj)
    (h : ∀ p ∈ new, mergeStep a p.1 p.2 = a) : mergeVariables a new = a := by
  induction new with
  | nil => rfl
  | cons p rest ih =>
    have hstep := h p (List.mem_cons_self _ _)
    show List.foldl _ (mergeStep a p.1 p.2) rest = a
    rw [hstep]
    exact ih (fun q hq => h q (List.mem_cons_of_mem _ hq))

theorem mergeStep_null (a : Obj) (k : String) : mergeStep a k PyValue.null = a := by
  unfold mergeStep
  split_ifs with h1 h2 <;> first
    | rfl
    | exact absurd (Or.inl rfl) h2

/-- Claim C7 (amended): the merge over extracted variable dictionaries is
idempotent (`merge(acc, acc) = acc` for any accumulator with unique keys),
keeps the accumulator whenever the new value is null (`merge(v, null) = v`),
and takes the new value into an empty accumulator (`merge(null, v) = v`)
for every field that is not system-owned (`link`, `uuid`) and every value
that is neither `None` nor the empty string — empty strings are treated as
absent, and `link`/`uuid` are never written by the merge. -/
theorem claim_C7_merge_amended :
    (∀ a : Obj, (a.map Prod.fst).Nodup → mergeVariables a a = a)
    ∧ (∀ (k : String) (v : PyValue), ¬(k = "link" ∨ k = "uuid") →
        v ≠ PyValue.null → pyEq v (.str "") = false →
        mergeVariables [] [(k, v)] = [(k, v)])
    ∧ (∀ a new : Obj, (∀ p ∈ new, p.2 = PyValue.null) → mergeVariables a new = a) := by
  refine ⟨?_, ?_, ?_⟩
  · intro a hnd
    exact mergeVariables_no_write a a
      (fun p hp => mergeStep_of_get_eq a p.1 p.2 (dictGet_mem_nodup a p.1 p.2 hnd hp))
  · intro k v hk hnull hempty
    show mergeStep [] k v = [(k, v)]
    unfold mergeStep
    rw [if_neg hk,
        if_neg (by
          rintro (h | h)
          · exact hnull h
          · rw [hempty] at h
            cases h)]
    have hget : dictGet [] k = PyValue.null := rfl
    rw [hget, if_pos (Or.inl rfl)]
    rfl
  · intro a new h
    exact mergeVariables_no_write a new
      (fun p hp => by rw [h p hp]; exact mergeStep_null a p.1)

/-- Witness for Claim C7 (amended): the three laws evaluated at concrete
inputs via the theorem itself. -/
theorem claim_C7_merge_amended_witness :
    mergeVariables [("area_foco", PyValue.str "Saúde")] [("area_foco", PyValue.str "Saúde")]
      = [("area_foco", PyValue.str "Saúde")]
    ∧ mergeVariables [] [("prazo", PyValue.str "2025-01-01")] = [("prazo", PyValue.str "2025-01-01")]
    ∧ mergeVariables [("duracao_max_meses", PyValue.num 24)] [("duracao_max_meses", PyValue.null)]
      = [("duracao_max_meses", PyValue.num 24)] :=
  ⟨claim_C7_merge_amended.1 _ (by decide),
   claim_C7_merge_amended.2.1 "prazo" (PyValue.str "2025-01-01")
     (by decide) (by decide) (by decide),
   claim_C7_merge_amended.2.2 _ _ (by decide)⟩

/-- Claim C7 counterexample: `merge(null, v) = v` fails as stated.  For the
field `link` (and likewise `uuid`) the merge skips the item entirely, so
merging `{link: v}` into an empty accumulator leaves the field null rather
than taking `v`. -/
theorem claim_C7_counterexample :
    mergeVariables [] [("link", PyValue.str "http://example.org/edital.pdf")] = []
    ∧ dictGet (mergeVariables [] [("link", PyValue.str "http://example.org/edital.pdf")]) "link"
        = PyValue.null
    ∧ PyValue.null ≠ PyValue.str "http://example.org/edital.pdf" := by
  refine ⟨by decide, by decide, by decide⟩

/-! ## Chunking (`OpenAIExtractorService._chunk_text`) -/

/-- The characters of a Lean string, for character-level slicing
(a Python `str` is a sequence of code points, as is `List Char`). -/
def lc (s : String) : List Char := s.toList

/-- Whitespace as stripped by Python's `str.strip()` (modelled by Lean's
`Char.isWhitespace`; both cover space, tab, CR and LF). -/
def isPySpace (c : Char) : Bool := c.isWhitespace

/-- Python `s.strip()`: remove leading and trailing whitespace. -/
def pyStrip (s : List Char) : List Char :=
  ((s.dropWhile isPySpace).reverse.dropWhile isPySpace).reverse

/-- Python slicing `text[start : start + len]` (clamped to the string). -/
def pySlice (text : List Char) (start len : ℕ) : List Char :=
  (text.drop start).take len

/-- The `while start < len(text)` loop of `_chunk_text`, including the
`.strip()` applied to every chunk.  `fuel` bounds the number of remaining
iterations; `chunkText` passes `text.length`, which suffices because
`start` advances by `step ≥ 1` per iteration.  (For `chunk_size ≤ overlap`
the Python loop never terminates; the model requires `0 < step`.) -/
def chunkGo (text : List Char) (chunkSize step : ℕ) : ℕ → ℕ → List (List Char)
  | _, 0 => []
  | start, fuel + 1 =>
      if start < text.length ∧ 0 < step then
        pyStrip (pySlice text start chunkSize) :: chunkGo text chunkSize step (start + step) fuel
      else []

/-- The same loop without the `.strip()`: the raw slices
`text[start : start + chunk_size]`. -/
def rawChunkGo (text : List Char) (chunkSize step : ℕ) : ℕ → ℕ → List (List Char)
  | _, 0 => []
  | start, fuel + 1 =>
      if start < text.length ∧ 0 < step then
        pySlice text start chunkSize :: rawChunkGo text chunkSize step (start + step) fuel
      else []

/-- `OpenAIExtractorService._chunk_text(text, chunk_size, overlap)`
(defaults 3000 and 300 at the call site). -/
def chunkText (text : List Char) (chunkSize overlap : ℕ) : List (List Char) :=
  chunkGo text chunkSize (chunkSize - overlap) 0 text.length

/-- The raw (unstripped) chunk slices of the same loop. -/
def rawChunkText (text : List Char) (chunkSize overlap : ℕ) : List (List Char) :=
  rawChunkGo text chunkSize (chunkSize - overlap) 0 text.length

/-- The spec's round-trip operation: concatenate the chunks after removing
the first `overlap` characters of every chunk but the first. -/
def reconstructOverlap (chunks : List (List Char)) (overlap : ℕ) : List Char :=
  match chunks with
  | [] => []
  | c :: rest => c ++ (rest.map (List.drop overlap)).flatten

theorem chunkGo_eq_map (text : List Char) (S step : ℕ) :
    ∀ fuel start, chunkGo text S step start fuel
      = (rawChunkGo text S step start fuel).map pyStrip := by
  intro fuel
  induction fuel with
  | zero => intro start; rfl
  | succ n ih =>
    intro start
    by_cases h : start < text.length ∧ 0 < step
    · rw [chunkGo, rawChunkGo, if_pos h, if_pos h, List.map_cons, ih]
    · rw [chunkGo, rawChunkGo, if_neg h, if_neg h]; rfl

theorem rawChunkGo_getElem? (text : List Char) (S step : ℕ) (hstep : 0 < step) :
    ∀ fuel start i, text.length ≤ start + fuel →
      (rawChunkGo text S step start fuel)[i]? =
        if start + i * step < text.length
        then some (pySlice text (start + i * step) S) else none := by
  intro fuel
  induction fuel with
  | zero =>
    intro start i hf
    show (([] : List (List Char)))[i]? = _
    rw [if_neg (by omega)]
    simp
  | succ n ih =>
    intro start i hf
    by_cases h : start < text.length
    · rw [rawChunkGo, if_pos ⟨h, hstep⟩]
      cases i with
      | zero =>
        rw [List.getElem?_cons_zero, if_pos (by omega)]
        simp
      | succ i =>
        rw [List.getElem?_cons_succ, ih (start + step) i (by omega)]
        have harith : start + step + i * step = start + (i + 1) * step := by ring
        rw [harith]
    · rw [rawChunkGo, if_neg (by omega)]
      rw [if_neg (by omega)]
      simp

theorem rawChunkGo_drop_flatten (text : List Char) (S O : ℕ) (hO : O < S) :
    ∀ fuel start, text.length ≤ start + fuel →
      ((rawChunkGo text S (S - O) start fuel).map (List.drop O)).flatten
        = text.drop (start + O) := by
  have hstep : 0 < S - O := by omega
  intro fuel
  induction fuel with
  | zero =>
    intro start hf
    show (([] : List (List Char)).map (List.drop O)).flatten = _
    symm
    exact List.drop_eq_nil_of_le (by omega)
  | succ n ih =>
    intro start hf
    by_cases h : start < text.length
    · rw [rawChunkGo, if_pos ⟨h, hstep⟩]
      simp only [List.map_cons, List.flatten_cons]
      rw [ih (start + (S - O)) (by omega)]
      unfold pySlice
      rw [List.drop_take, List.drop_drop]
      have hbig : List.drop (start + (S - O) + O) text
          = List.drop (S - O) (List.drop (start + O) text) := by
        rw [List.drop_drop]
        congr 1
        omega
      rw [hbig, List.take_append_drop]
    · rw [rawChunkGo, if_neg (by omega)]
      symm
      exact List.drop_eq_nil_of_le (by omega)

theorem raw_roundtrip (text : List Char) (S O : ℕ) (hO : O < S) :
    reconstructOverlap (rawChunkText text S O) O = text := by
  unfold rawChunkText
  cases htext : text.length with
  | zero =>
    have hnil : text = [] := List.length_eq_zero.mp htext
    subst hnil
    rfl
  | succ n =>
    rw [rawChunkGo, if_pos ⟨by omega, by omega⟩]
    show pySlice text 0 S
        ++ ((rawChunkGo text S (S - O) (0 + (S - O)) n).map (List.drop O)).flatten = text
    rw [rawChunkGo_drop_flatten text S O hO n (0 + (S - O)) (by omega)]
    rw [show 0 + (S - O) + O = S from by omega]
    unfold pySlice
    rw [List.drop_zero, List.take_append_drop]

/-- Claim C8 (amended): chunk `i` equals `strip(text[i*(S−O) : i*(S−O)+S])`
— each chunk is additionally stripped of leading/trailing whitespace, which
the claim's slice formula omits; concatenating the raw (unstripped) slices
with the O-character overlaps removed reproduces the full input text
exactly; the stripped chunks that the code actually returns reproduce the
text only when stripping changes no chunk (whitespace at a chunk boundary
is lost). -/
theorem claim_C8_chunking_amended (text : List Char) (S O : ℕ) (hO : O < S) :
    (∀ i : ℕ, (chunkText text S O)[i]? =
      if i * (S - O) < text.length
      then some (pyStrip (pySlice text (i * (S - O)) S)) else none)
    ∧ reconstructOverlap (rawChunkText text S O) O = text
    ∧ ((∀ c ∈ rawChunkText text S O, pyStrip c = c) →
      reconstructOverlap (chunkText text S O) O = text) := by
  refine ⟨?_, raw_roundtrip text S O hO, ?_⟩
  · intro i
    unfold chunkText
    rw [chunkGo_eq_map, List.getElem?_map]
    rw [rawChunkGo_getElem? text S (S - O) (by omega) text.length 0 i (by omega)]
    rw [Nat.zero_add]
    by_cases hc : i * (S - O) < text.length
    · rw [if_pos hc, if_pos hc]
      rfl
    · rw [if_neg hc, if_neg hc]
      rfl
  · intro hfix
    have hsame : chunkText text S O = rawChunkText text S O := by
      unfold chunkText rawChunkText
      rw [chunkGo_eq_map]
      calc (rawChunkGo text S (S - O) 0 text.length).map pyStrip
          = (rawChunkGo text S (S - O) 0 text.length).map id :=
            List.map_congr_left hfix
        _ = rawChunkGo text S (S - O) 0 text.length := List.map_id _
    rw [hsame]
    exact raw_roundtrip text S O hO

/-- Witness for Claim C8 (amended) at text `"abcde"`, S=3, O=1: chunk 1 is
the stripped slice `text[2:5]` and the raw slices reconstruct the text. -/
theorem claim_C8_chunking_amended_witness :
    (1 < 3)
    ∧ (chunkText (lc "abcde") 3 1)[1]? = some (pyStrip (pySlice (lc "abcde") 2 3))
    ∧ reconstructOverlap (rawChunkText (lc "abcde") 3 1) 1 = lc "abcde" := by
  refine ⟨by decide, ?_, (claim_C8_chunking_amended (lc "abcde") 3 1 (by decide)).2.1⟩
  rw [(claim_C8_chunking_amended (lc "abcde") 3 1 (by decide)).1 1]
  decide

/-- Claim C8 counterexample: with the default sizes S=3000, O=300, the input
`" ab"` yields the single chunk `"ab"` — the chunk is the stripped slice,
not `text[0:3000]`, and concatenating all chunks with overlaps stripped
gives `"ab"`, which does not cover the input (the leading space is lost). -/
theorem claim_C8_chunking_counterexample :
    chunkText (lc " ab") 3000 300 = [lc "ab"]
    ∧ reconstructOverlap (chunkText (lc " ab") 3000 300) 300 ≠ lc " ab" := by
  exact ⟨by decide, by decide⟩

/-! ## Job executions and the scheduler
(`domain/entities/job_execution.py`, `job_scheduler_service.py`) -/

/-- One entry of `JobExecution.errors`.  `add_error` appends
`{edital_url, error, retry_count, timestamp}`; `fail` appends
`{error, timestamp, is_critical: True}` (no URL, modelled as `""`). -/
structure ErrorEntry where
  edital_url : String
  error : String
  retry_count : ℕ
  is_critical : Bool
deriving DecidableEq

/-- The default `result_summary` built by `JobExecution.complete`. -/
structure ResultSummary where
  total_editais : ℕ
  processed_editais : ℕ
  failed_editais : ℕ
  success_rate : ℚ
deriving DecidableEq

/-- `progress = processed / total * 100 if total > 0 else 0`
(Python float arithmetic modelled exactly over `ℚ`).  Written with `mkRat`
— which equals `processed / total * 100`, see `progressOf_eq` — so that
the kernel can evaluate concrete progress values. -/
def progressOf (processed total : ℕ) : ℚ :=
  if 0 < total then mkRat (processed * 100) total else 0

/-- `JobExecution` (`domain/entities/job_execution.py`).  `started_at` and
`finished_at` are modelled as "was set" flags. -/
structure JobExecution where
  job_name : String
  status : String
  progress : ℚ
  total_editais : ℕ
  processed_editais : ℕ
  failed_editais : ℕ
  errors : List ErrorEntry
  started_at_set : Bool
  finished_at_set : Bool
  result_summary : Option ResultSummary
deriving DecidableEq

/-- `JobExecution.create(job_name)`. -/
def JobExecution.create (name : String) : JobExecution :=
  { job_name := name, status := "pending", progress := 0, total_editais := 0,
    processed_editais := 0, failed_editais := 0, errors := [],
    started_at_set := false, finished_at_set := false, result_summary := none }

/-- `JobExecution.start()`. -/
def JobExecution.start (j : JobExecution) : JobExecution :=
  { j with status := "running", started_at_set := true }

/-- `JobExecution.update_progress(processed, total)`. -/
def JobExecution.update_progress (j : JobExecution) (processed total : ℕ) : JobExecution :=
  { j with processed_editais := processed, total_editais := total,
           progress := progressOf processed total }

/-- `JobExecution.add_error(edital_url, error_message, retry_count)`. -/
def JobExecution.add_error (j : JobExecution) (url msg : String) (retry : ℕ) : JobExecution :=
  { j with errors := j.errors ++ [⟨url, msg, retry, false⟩],
           failed_editais := j.failed_editais + 1 }

/-- `JobExecution.complete()` with the default summary. -/
def JobExecution.complete (j : JobExecution) : JobExecution :=
  { j with status := "completed", finished_at_set := true, progress := 100,
           result_summary := some
             { total_editais := j.total_editais,
               processed_editais := j.processed_editais,
               failed_editais := j.failed_editais,
               success_rate := progressOf j.processed_editais j.total_editais } }

/-- `JobExecution.fail(error_message)`. -/
def JobExecution.fail (j : JobExecution) (msg : String) : JobExecution :=
  { j with status := "failed", finished_at_set := true,
           errors := j.errors ++ [⟨"", msg, 0, true⟩] }

/-- `JobExecution.cancel()`. -/
def JobExecution.cancel (j : JobExecution) : JobExecution :=
  { j with status := "cancelled", finished_at_set := true }

/-- State visible to one running job of `JobSchedulerService`:
the persisted MongoDB document `db` (plus `trace`, the full sequence of
persisted writes in order), the run loop's in-memory `job` object `mem`
(distinct from `db`: `find_by_id` deserializes a fresh object), the
job's `running_jobs[job_id]` entry (`none` = id absent from the map), and
the values returned by `cancel_job` calls. -/
structure SchedState where
  db : JobExecution
  trace : List JobExecution
  mem : JobExecution
  flag : Option Bool
  cancelRets : List Bool
deriving DecidableEq

/-- `await self.job_repo.update(job)` after mutating the in-memory `job`:
the whole document is overwritten. -/
def persistMem (s : SchedState) (j : JobExecution) : SchedState :=
  { s with mem := j, db := j, trace := s.trace ++ [j] }

/-- `JobSchedulerService.cancel_job(job_id)` for this job's id: if the id
is in `running_jobs`, flip the flag to False, load the job from the store,
mark it cancelled and persist, and return True; otherwise return False.
The returned Boolean is appended to `cancelRets`. -/
def cancelJob (s : SchedState) : SchedState :=
  match s.flag with
  | some _ =>
      let j := s.db.cancel
      { s with flag := some false, db := j, trace := s.trace ++ [j],
               cancelRets := s.cancelRets ++ [true] }
  | none => { s with cancelRets := s.cancelRets ++ [false] }

/-- Outcome of processing one PDF URL inside a job run:
`download_and_extract_pdf` returns text and extraction succeeds (`okPdf`),
returns falsy text (`emptyText`), or the per-PDF `try` block raises
(`exnErr`). -/
inductive PdfOutcome where
  | okPdf
  | emptyText
  | exnErr (msg : String)
deriving DecidableEq

/-- The per-PDF `for i, url in enumerate(urls, 1)` loop shared verbatim by
`_execute_job` (CNPq), `_execute_fapesq_job` and `_execute_paraiba_gov_job`.
`n = len(urls)`; `i` is the 1-based index.  A `DELETE /jobs/{id}` request
issued after `k` completed iterations is modelled by `cancelAfter = some k`
and runs between PDFs, before the loop-top flag check.  On `emptyText` the
code `continue`s past `update_progress`; on an exception it records the
error and still runs `update_progress(i, n)`. -/
def pdfLoop (n : ℕ) (cancelAfter : Option ℕ) :
    List (String × PdfOutcome) → ℕ → SchedState → SchedState
  | [], _, s => s
  | (url, outcome) :: rest, i, s =>
    let s1 := if cancelAfter = some (i - 1) then cancelJob s else s
    -- `if not self.running_jobs.get(job_id, True): break`
    if s1.flag.getD true = false then s1
    else
      match outcome with
      | .emptyText =>
          let s2 := persistMem s1 (s1.mem.add_error url "Não foi possível extrair texto do PDF" 0)
          pdfLoop n cancelAfter rest (i + 1) s2
      | .exnErr msg =>
          let s2 := persistMem s1 (s1.mem.add_error url msg 0)
          let s3 := persistMem s2 (s2.mem.update_progress i n)
          pdfLoop n cancelAfter rest (i + 1) s3
      | .okPdf =>
          let s2 := persistMem s1 (s1.mem.update_progress i n)
          pdfLoop n cancelAfter rest (i + 1) s2

/-- `execute_*_job_now` + the start of `_execute_*_job`: the created
pending record is in the store, and the id is in `running_jobs` only when
the runner registers it. -/
def initState (registerFlag : Bool) (jobName : String) : SchedState :=
  { db := JobExecution.create jobName, trace := [JobExecution.create jobName],
    mem := JobExecution.create jobName,
    flag := if registerFlag then some true else none, cancelRets := [] }

/-- A whole flat-list job run (`_execute_job` and the FAPESQ / Paraíba Gov
variants): optionally register the id in `running_jobs` (`registerFlag`;
only `_execute_job` does), `start`, set `update_progress(0, len(urls))`,
run the per-PDF loop, then — on both normal exit and cancellation break —
call `job.complete()` and persist; `finally` pops the id from
`running_jobs`. -/
def execPdfJob (registerFlag : Bool) (jobName : String)
    (urls : List (String × PdfOutcome)) (cancelAfter : Option ℕ) : SchedState :=
  let s1 := persistMem (initState registerFlag jobName) (initState registerFlag jobName).mem.start
  let s2 := persistMem s1 (s1.mem.update_progress 0 urls.length)
  let s3 := pdfLoop urls.length cancelAfter urls 1 s2
  let s4 := persistMem s3 s3.mem.complete
  { s4 with flag := none }

/-- `JobSchedulerService._execute_job` (CNPq): registers the id in
`running_jobs` before the `try`. -/
def execCnpqJob (urls : List (String × PdfOutcome)) (cancelAfter : Option ℕ) : SchedState :=
  execPdfJob true "cnpq_scraping_manual" urls cancelAfter

/-- `JobSchedulerService._execute_fapesq_job`: never writes
`self.running_jobs[job_id] = True` (the id stays absent from the map). -/
def execFapesqJob (urls : List (String × PdfOutcome)) (cancelAfter : Option ℕ) : SchedState :=
  execPdfJob false "fapesq_scraping_manual" urls cancelAfter

/-- `JobSchedulerService._execute_paraiba_gov_job`: likewise never
registers the id. -/
def execParaibaGovJob (urls : List (String × PdfOutcome)) (cancelAfter : Option ℕ) : SchedState :=
  execPdfJob false "paraiba_gov_scraping_manual" urls cancelAfter

/-- Inner per-PDF loop of `_execute_confap_job` (steps 3 of the source):
`total_pdfs` is already updated for this edital; on `emptyText` the code
increments `processed_pdfs` and updates progress before `continue`, on an
exception it records the error and then also increments and updates. -/
def confapPdfLoop (totalPdfs : ℕ) :
    List (String × PdfOutcome) → ℕ → SchedState → SchedState × ℕ
  | [], processed, s => (s, processed)
  | (url, outcome) :: rest, processed, s =>
    if s.flag.getD true = false then (s, processed)
    else
      match outcome with
      | .emptyText =>
          let s2 := persistMem s (s.mem.add_error url "Não foi possível extrair texto do PDF" 0)
          let s3 := persistMem s2 (s2.mem.update_progress (processed + 1) totalPdfs)
          confapPdfLoop totalPdfs rest (processed + 1) s3
      | .exnErr msg =>
          let s2 := persistMem s (s.mem.add_error url msg 0)
          let s3 := persistMem s2 (s2.mem.update_progress (processed + 1) totalPdfs)
          confapPdfLoop totalPdfs rest (processed + 1) s3
      | .okPdf =>
          let s2 := persistMem s (s.mem.update_progress (processed + 1) totalPdfs)
          confapPdfLoop totalPdfs rest (processed + 1) s2

/-- Outer per-edital loop of `_execute_confap_job`: for each detail page,
either no download links were found (`add_error` and `continue`) or
`total_pdfs += len(download_links)` and `update_progress(processed_pdfs,
total_pdfs)` is persisted BEFORE the new PDFs are processed — this is
where `total` grows mid-run. -/
def confapEditalLoop :
    List (String × List (String × PdfOutcome)) → ℕ → ℕ → SchedState → SchedState
  | [], _, _, s => s
  | (detailUrl, pdfs) :: rest, totalPdfs, processed, s =>
    if s.flag.getD true = false then s
    else if pdfs.isEmpty then
      let s2 := persistMem s (s.mem.add_error detailUrl "Nenhum link de download encontrado" 0)
      confapEditalLoop rest totalPdfs processed s2
    else
      let t2 := totalPdfs + pdfs.length
      let s2 := persistMem s (s.mem.update_progress processed t2)
      let r := confapPdfLoop t2 pdfs processed s2
      confapEditalLoop rest t2 r.2 r.1

/-- `JobSchedulerService._execute_confap_job` for a run during which no
cancel request arrives (the flag stays True): register, start, loop over
editais growing `total_pdfs` per detail page, then `complete`. -/
def execConfapJob (editais : List (String × List (String × PdfOutcome))) : SchedState :=
  let j0 := JobExecution.create "confap_scraping_manual"
  let s0 : SchedState :=
    { db := j0, trace := [j0], mem := j0, flag := some true, cancelRets := [] }
  let s1 := persistMem s0 s0.mem.start
  let s2 := confapEditalLoop editais 0 0 s1
  let s3 := persistMem s2 s2.mem.complete
  { s3 with flag := none }

theorem progressOf_eq (p n : ℕ) :
    progressOf p n = if 0 < n then (p : ℚ) / n * 100 else 0 := by
  unfold progressOf
  split
  · rw [Rat.mkRat_eq_div]
    push_cast
    ring
  · rfl

theorem progressOf_zero (n : ℕ) : progressOf 0 n = 0 := by
  rw [progressOf_eq]
  split <;> simp

theorem progressOf_nonneg (p n : ℕ) : 0 ≤ progressOf p n := by
  rw [progressOf_eq]
  split
  · positivity
  · exact le_refl 0

theorem progressOf_mono {p q : ℕ} (n : ℕ) (h : p ≤ q) :
    progressOf p n ≤ progressOf q n := by
  rw [progressOf_eq, progressOf_eq]
  split
  · rename_i hn
    have hc : (0 : ℚ) < n := by exact_mod_cast hn
    have hdiv : (p : ℚ) / n ≤ (q : ℚ) / n := by
      apply div_le_div_of_nonneg_right ?_ hc.le
      exact_mod_cast h
    nlinarith
  · exact le_refl 0

theorem progressOf_le_100 {p n : ℕ} (h : p ≤ n) : progressOf p n ≤ 100 := by
  rw [progressOf_eq]
  split
  · rename_i hn
    have hc : (0 : ℚ) < n := by exact_mod_cast hn
    have h1 : (p : ℚ) / n ≤ 1 := by
      rw [div_le_one hc]
      exact_mod_cast h
    nlinarith
  · norm_num

/-- Invariant carried through a run: the persisted snapshots form a
non-decreasing progress sequence, the last persisted snapshot is `db`,
and the in-memory job's progress agrees with the persisted one. -/
def TraceInv (s : SchedState) : Prop :=
  List.Chain' (· ≤ ·) (s.trace.map JobExecution.progress)
  ∧ (s.trace.map JobExecution.progress).getLast? = some s.db.progress
  ∧ s.mem.progress = s.db.progress

theorem traceInv_persist {s : SchedState} {j : JobExecution}
    (h : TraceInv s) (hle : s.db.progress ≤ j.progress) : TraceInv (persistMem s j) := by
  obtain ⟨hc, hl, _⟩ := h
  refine ⟨?_, ?_, rfl⟩
  · show List.Chain' (· ≤ ·) ((s.trace ++ [j]).map JobExecution.progress)
    rw [List.map_append]
    apply List.Chain'.append hc (List.chain'_singleton _)
    intro x hx y hy
    rw [hl] at hx
    simp only [Option.mem_def, Option.some_inj] at hx
    simp only [List.map_cons, List.map_nil, List.head?_cons, Option.mem_def,
      Option.some_inj] at hy
    subst hx
    subst hy
    exact hle
  · show ((s.trace ++ [j]).map JobExecution.progress).getLast? = some j.progress
    rw [List.map_append]
    simp

theorem cancelJob_db_progress (s : SchedState) :
    (cancelJob s).db.progress = s.db.progress := by
  unfold cancelJob
  split <;> rfl

theorem traceInv_cancelJob {s : SchedState} (h : TraceInv s) : TraceInv (cancelJob s) := by
  unfold cancelJob
  split
  · obtain ⟨hc, hl, hm⟩ := h
    refine ⟨?_, ?_, ?_⟩
    · show List.Chain' (· ≤ ·) ((s.trace ++ [s.db.cancel]).map JobExecution.progress)
      rw [List.map_append]
      apply List.Chain'.append hc (List.chain'_singleton _)
      intro x hx y hy
      rw [hl] at hx
      simp only [Option.mem_def, Option.some_inj] at hx
      simp only [List.map_cons, List.map_nil, List.head?_cons, Option.mem_def,
        Option.some_inj] at hy
      subst hx
      subst hy
      exact le_refl _
    · show ((s.trace ++ [s.db.cancel]).map JobExecution.progress).getLast?
          = some s.db.cancel.progress
      rw [List.map_append]
      simp
    · exact hm
  · exact h

theorem traceInv_setFlag (s : SchedState) (f : Option Bool) (h : TraceInv s) :
    TraceInv { s with flag := f } := h

theorem pdfLoop_traceInv (n : ℕ) (c : Option ℕ) :
    ∀ (rest : List (String × PdfOutcome)) (i : ℕ) (s : SchedState),
      1 ≤ i → i - 1 + rest.length = n →
      TraceInv s → s.db.progress ≤ progressOf (i - 1) n →
      TraceInv (pdfLoop n c rest i s)
      ∧ (pdfLoop n c rest i s).db.progress ≤ 100 := by
  intro rest
  induction rest with
  | nil =>
    intro i s hi harith hinv hle
    exact ⟨hinv, le_trans hle (progressOf_le_100 (by omega))⟩
  | cons p rest ih =>
    intro i s hi harith hinv hle
    obtain ⟨url, outcome⟩ := p
    simp only [pdfLoop]
    have hinv1 : TraceInv (if c = some (i - 1) then cancelJob s else s) := by
      split
      · exact traceInv_cancelJob hinv
      · exact hinv
    have hdb1 : (if c = some (i - 1) then cancelJob s else s).db.progress
        = s.db.progress := by
      split
      · exact cancelJob_db_progress s
      · rfl
    set s1 := if c = some (i - 1) then cancelJob s else s with hs1
    by_cases hbreak : s1.flag.getD true = false
    · rw [if_pos hbreak]
      refine ⟨hinv1, ?_⟩
      rw [hdb1]
      exact le_trans hle (progressOf_le_100 (by omega))
    · rw [if_neg hbreak]
      have hmem1 : s1.mem.progress = s1.db.progress := hinv1.2.2
      cases outcome with
      | emptyText =>
        apply ih (i + 1)
        · omega
        · simp at harith ⊢
          omega
        · apply traceInv_persist hinv1
          show s1.db.progress ≤ s1.mem.progress
          exact le_of_eq hmem1.symm
        · show (s1.mem.add_error url _ 0).progress ≤ progressOf (i + 1 - 1) n
          show s1.mem.progress ≤ progressOf (i + 1 - 1) n
          rw [hmem1, hdb1]
          exact le_trans hle (progressOf_mono n (by omega))
      | exnErr msg =>
        apply ih (i + 1)
        · omega
        · simp at harith ⊢
          omega
        · apply traceInv_persist
          · apply traceInv_persist hinv1
            exact le_of_eq hmem1.symm
          · show (s1.mem.add_error url msg 0).progress
              ≤ (((persistMem s1 (s1.mem.add_error url msg 0)).mem.update_progress i n)).progress
            show s1.mem.progress ≤ progressOf i n
            rw [hmem1, hdb1]
            exact le_trans hle (progressOf_mono n (by omega))
        · show progressOf i n ≤ progressOf (i + 1 - 1) n
          exact progressOf_mono n (by omega)
      | okPdf =>
        apply ih (i + 1)
        · omega
        · simp at harith ⊢
          omega
        · apply traceInv_persist hinv1
          show s1.db.progress ≤ progressOf i n
          rw [hdb1]
          exact le_trans hle (progressOf_mono n (by omega))
        · show progressOf i n ≤ progressOf (i + 1 - 1) n
          exact progressOf_mono n (by omega)

theorem execPdfJob_traceInv (register : Bool) (name : String)
    (urls : List (String × PdfOutcome)) (cancelAfter : Option ℕ) :
    TraceInv (execPdfJob register name urls cancelAfter) := by
  have h0 : TraceInv (initState register name) :=
    ⟨List.chain'_singleton _, by simp [initState], rfl⟩
  have h1 : TraceInv
      (persistMem (initState register name) (initState register name).mem.start) :=
    traceInv_persist h0 (le_of_eq rfl)
  have h2 : TraceInv
      (persistMem (persistMem (initState register name) (initState register name).mem.start)
        ((persistMem (initState register name)
          (initState register name).mem.start).mem.update_progress 0 urls.length)) := by
    apply traceInv_persist h1
    show (0 : ℚ) ≤ progressOf 0 urls.length
    rw [progressOf_zero]
  have h3 := pdfLoop_traceInv urls.length cancelAfter urls 1 _
    (le_refl 1) (by simp) h2 (le_of_eq rfl)
  exact traceInv_setFlag _ none (traceInv_persist h3.1 h3.2)

/-- Claim C4 (amended): within a run whose `total` is fixed once after the
listing (`_execute_job` / CNPq, FAPESQ, Paraíba Gov), the sequence of
persisted `progress` values is non-decreasing over the whole lifetime of
the run, for every sequence of per-PDF outcomes and every cancellation
point; in runs that grow `total` per detail page (CONFAP, FINEP) the
progress can decrease at the moment `total` grows (see counterexample). -/
theorem claim_C4_progress_amended (register : Bool) (name : String)
    (urls : List (String × PdfOutcome)) (cancelAfter : Option ℕ) :
    List.Chain' (· ≤ ·)
      ((execPdfJob register name urls cancelAfter).trace.map JobExecution.progress) :=
  (execPdfJob_traceInv register name urls cancelAfter).1

/-- Claim C4 counterexample: a CONFAP run (two detail pages, the first with
two PDFs, the second with one) whose persisted progress sequence is
`[0, 0, 0, 50, 100, 200/3, 100, 100]` — the value drops from 100 to 200/3
when the second detail page grows `total_pdfs` from 2 to 3, so progress is
not monotonically non-decreasing over the run. -/
theorem claim_C4_progress_counterexample :
    ((execConfapJob [("e1", [("p1", .okPdf), ("p2", .okPdf)]),
        ("e2", [("p3", .okPdf)])]).trace.map JobExecution.progress)
      = [0, 0, 0, 50, 100, mkRat 200 3, 100, 100]
    ∧ ¬ (100 : ℚ) ≤ mkRat 200 3 := by
  exact ⟨by decide, by decide⟩

/-- Claim C1: evaluation of the code at the failing input.  A CNPq run over
two PDFs receives `DELETE /jobs/{id}` after the first PDF: `cancel_job`
returns True and persists status `cancelled`, the loop breaks before the
second PDF — and then `_execute_job` unconditionally runs `job.complete()`,
so the `cancelled` write is overwritten and the final persisted state is
`completed` with progress 100. -/
theorem claim_C1_cancel_overwritten :
    ((execCnpqJob [("u1", .okPdf), ("u2", .okPdf)] (some 1)).trace.map JobExecution.status)
      = ["pending", "running", "running", "running", "cancelled", "completed"]
    ∧ (execCnpqJob [("u1", .okPdf), ("u2", .okPdf)] (some 1)).cancelRets = [true]
    ∧ (execCnpqJob [("u1", .okPdf), ("u2", .okPdf)] (some 1)).db.status = "completed"
    ∧ (execCnpqJob [("u1", .okPdf), ("u2", .okPdf)] (some 1)).db.progress = 100 := by
  refine ⟨by decide, by decide, by decide, by decide⟩

/-- Invariant for Claim C5: every snapshot so far, the in-memory job and
the persisted document satisfy `processed ≤ total`. -/
def ProcInv (s : SchedState) : Prop :=
  (∀ j ∈ s.trace, j.processed_editais ≤ j.total_editais)
  ∧ s.mem.processed_editais ≤ s.mem.total_editais
  ∧ s.db.processed_editais ≤ s.db.total_editais

theorem procInv_persist {s : SchedState} {j : JobExecution}
    (h : ProcInv s) (hj : j.processed_editais ≤ j.total_editais) :
    ProcInv (persistMem s j) := by
  obtain ⟨ht, _, _⟩ := h
  refine ⟨?_, hj, hj⟩
  intro x hx
  rcases List.mem_append.mp hx with hx | hx
  · exact ht x hx
  · rw [List.mem_singleton.mp hx]
    exact hj

theorem procInv_cancelJob {s : SchedState} (h : ProcInv s) : ProcInv (cancelJob s) := by
  unfold cancelJob
  split
  · obtain ⟨ht, hm, hd⟩ := h
    refine ⟨?_, hm, hd⟩
    intro x hx
    rcases List.mem_append.mp hx with hx | hx
    · exact ht x hx
    · rw [List.mem_singleton.mp hx]
      exact hd
  · exact h

theorem pdfLoop_procInv (n : ℕ) (c : Option ℕ) :
    ∀ (rest : List (String × PdfOutcome)) (i : ℕ) (s : SchedState),
      1 ≤ i → i - 1 + rest.length = n → ProcInv s →
      ProcInv (pdfLoop n c rest i s) := by
  intro rest
  induction rest with
  | nil =>
    intro i s _ _ h
    exact h
  | cons p rest ih =>
    intro i s hi harith h
    obtain ⟨url, outcome⟩ := p
    simp only [pdfLoop]
    have h1 : ProcInv (if c = some (i - 1) then cancelJob s else s) := by
      split
      · exact procInv_cancelJob h
      · exact h
    set s1 := if c = some (i - 1) then cancelJob s else s
    by_cases hbreak : s1.flag.getD true = false
    · rw [if_pos hbreak]
      exact h1
    · rw [if_neg hbreak]
      have hin : i ≤ n := by
        simp at harith
        omega
      cases outcome with
      | emptyText =>
        apply ih (i + 1)
        · omega
        · simp at harith ⊢
          omega
        · exact procInv_persist h1 h1.2.1
      | exnErr msg =>
        apply ih (i + 1)
        · omega
        · simp at harith ⊢
          omega
        · exact procInv_persist (procInv_persist h1 h1.2.1) hin
      | okPdf =>
        apply ih (i + 1)
        · omega
        · simp at harith ⊢
          omega
        · exact procInv_persist h1 hin

theorem execPdfJob_procInv (register : Bool) (name : String)
    (urls : List (String × PdfOutcome)) (cancelAfter : Option ℕ) :
    ProcInv (execPdfJob register name urls cancelAfter) := by
  have h0 : ProcInv (initState register name) := by
    refine ⟨?_, le_refl 0, le_refl 0⟩
    intro x hx
    rw [List.mem_singleton.mp hx]
    exact le_refl 0
  have h1 : ProcInv
      (persistMem (initState register name) (initState register name).mem.start) :=
    procInv_persist h0 (Nat.le_refl 0)
  have h2 : ProcInv
      (persistMem (persistMem (initState register name) (initState register name).mem.start)
        ((persistMem (initState register name)
          (initState register name).mem.start).mem.update_progress 0 urls.length)) :=
    procInv_persist h1 (Nat.zero_le urls.length)
  have h3 := pdfLoop_procInv urls.length cancelAfter urls 1 _ (le_refl 1) (by simp) h2
  exact procInv_persist h3 h3.2.1

/-- Claim C5 (amended): `processed_editais` counts attempted PDFs — a PDF
that fails with an exception is recorded in `failed_editais` AND picked up
by the unconditional `update_progress(i, n)`, so it is also counted as
processed.  The invariant that does hold at every persisted snapshot of a
flat-list run, for every outcome sequence and cancellation point, is
`processed ≤ total` (not `processed + failed_count ≤ total`). -/
theorem claim_C5_accounting_amended (register : Bool) (name : String)
    (urls : List (String × PdfOutcome)) (cancelAfter : Option ℕ) :
    ∀ j ∈ (execPdfJob register name urls cancelAfter).trace,
      j.processed_editais ≤ j.total_editais :=
  (execPdfJob_procInv register name urls cancelAfter).1

/-- Witness for Claim C5 (amended): the final persisted document of a
concrete failing run satisfies `processed ≤ total`. -/
theorem claim_C5_accounting_amended_witness :
    (execCnpqJob [("u", PdfOutcome.exnErr "boom")] none).db
      ∈ (execCnpqJob [("u", PdfOutcome.exnErr "boom")] none).trace
    ∧ (execCnpqJob [("u", PdfOutcome.exnErr "boom")] none).db.processed_editais
      ≤ (execCnpqJob [("u", PdfOutcome.exnErr "boom")] none).db.total_editais :=
  ⟨by decide,
   claim_C5_accounting_amended true "cnpq_scraping_manual"
     [("u", PdfOutcome.exnErr "boom")] none _ (by decide)⟩

/-- Claim C5 counterexample: a CNPq run over one URL whose per-PDF `try`
block raises.  `add_error` increments `failed_editais` and the loop still
runs `update_progress(1, 1)`, so the final persisted document has
`processed = 1`, `failed_count = 1`, `total = 1` and
`processed + failed_count ≤ total` is false — the failed PDF is counted
both as failed and as processed. -/
theorem claim_C5_accounting_counterexample :
    (execCnpqJob [("u1", PdfOutcome.exnErr "boom")] none).db.processed_editais = 1
    ∧ (execCnpqJob [("u1", PdfOutcome.exnErr "boom")] none).db.failed_editais = 1
    ∧ (execCnpqJob [("u1", PdfOutcome.exnErr "boom")] none).db.total_editais = 1
    ∧ ¬ ((execCnpqJob [("u1", PdfOutcome.exnErr "boom")] none).db.processed_editais
          + (execCnpqJob [("u1", PdfOutcome.exnErr "boom")] none).db.failed_editais
        ≤ (execCnpqJob [("u1", PdfOutcome.exnErr "boom")] none).db.total_editais) := by
  refine ⟨by decide, by decide, by decide, by decide⟩

/-- Invariant for Claim C10: a run whose job id was never registered in
`running_jobs` keeps the id unregistered, sees only `False` returns from
`cancel_job`, and never persists a `cancelled` status. -/
def UncancelledInv (s : SchedState) : Prop :=
  s.flag = none
  ∧ s.cancelRets.all (fun r => !r) = true
  ∧ ((s.trace.map JobExecution.status).all (fun st => !(st == "cancelled"))) = true
  ∧ (s.mem.status == "cancelled") = false

theorem uncancelledInv_persist {s : SchedState} {j : JobExecution}
    (h : UncancelledInv s) (hj : (j.status == "cancelled") = false) :
    UncancelledInv (persistMem s j) := by
  obtain ⟨hf, hr, ht, _⟩ := h
  refine ⟨hf, hr, ?_, hj⟩
  show ((s.trace ++ [j]).map JobExecution.status).all (fun st => !(st == "cancelled")) = true
  rw [List.map_append, List.all_append, ht]
  simp [hj]

theorem uncancelledInv_cancelJob {s : SchedState} (h : UncancelledInv s) :
    UncancelledInv (cancelJob s) := by
  unfold cancelJob
  rw [h.1]
  refine ⟨rfl, ?_, h.2.2.1, h.2.2.2⟩
  show (s.cancelRets ++ [false]).all (fun r => !r) = true
  rw [List.all_append, h.2.1]
  rfl

theorem pdfLoop_uncancelled (n : ℕ) (c : Option ℕ) :
    ∀ (rest : List (String × PdfOutcome)) (i : ℕ) (s : SchedState),
      UncancelledInv s → UncancelledInv (pdfLoop n c rest i s) := by
  intro rest
  induction rest with
  | nil =>
    intro i s h
    exact h
  | cons p rest ih =>
    intro i s h
    obtain ⟨url, outcome⟩ := p
    simp only [pdfLoop]
    have h1 : UncancelledInv (if c = some (i - 1) then cancelJob s else s) := by
      split
      · exact uncancelledInv_cancelJob h
      · exact h
    set s1 := if c = some (i - 1) then cancelJob s else s
    by_cases hbreak : s1.flag.getD true = false
    · rw [if_pos hbreak]
      exact h1
    · rw [if_neg hbreak]
      cases outcome with
      | emptyText => exact ih (i + 1) _ (uncancelledInv_persist h1 h1.2.2.2)
      | exnErr msg =>
        exact ih (i + 1) _
          (uncancelledInv_persist (uncancelledInv_persist h1 h1.2.2.2) h1.2.2.2)
      | okPdf => exact ih (i + 1) _ (uncancelledInv_persist h1 h1.2.2.2)

theorem execPdfJob_uncancelled (name : String)
    (urls : List (String × PdfOutcome)) (cancelAfter : Option ℕ) :
    UncancelledInv (execPdfJob false name urls cancelAfter) := by
  have h0 : UncancelledInv (initState false name) := ⟨rfl, rfl, rfl, rfl⟩
  have h1 : UncancelledInv
      (persistMem (initState false name) (initState false name).mem.start) :=
    uncancelledInv_persist h0 (by rfl)
  have h2 : UncancelledInv
      (persistMem (persistMem (initState false name) (initState false name).mem.start)
        ((persistMem (initState false name)
          (initState false name).mem.start).mem.update_progress 0 urls.length)) :=
    uncancelledInv_persist h1 (by rfl)
  have h3 := pdfLoop_uncancelled urls.length cancelAfter urls 1 _ h2
  have h4 := uncancelledInv_persist h3
    (show ((pdfLoop urls.length cancelAfter urls 1
        (persistMem (persistMem (initState false name) (initState false name).mem.start)
          ((persistMem (initState false name)
            (initState false name).mem.start).mem.update_progress
              0 urls.length))).mem.complete.status == "cancelled") = false from rfl)
  exact ⟨rfl, h4.2.1, h4.2.2.1, h4.2.2.2⟩

/-- Claim C10: `cancel_job(job_id)` succeeds exactly when the id is in the
in-memory `running_jobs` map; the FAPESQ and Paraíba Gov runners never
register their job id, so for those runs every cancel attempt returns
False, no `cancelled` status is ever persisted, and the run continues to
completion — for every outcome sequence and cancellation point. -/
theorem claim_C10_unregistered_cancel :
    (∀ s : SchedState, (cancelJob s).cancelRets = s.cancelRets ++ [s.flag.isSome])
    ∧ (∀ (urls : List (String × PdfOutcome)) (cancelAfter : Option ℕ),
        (execFapesqJob urls cancelAfter).cancelRets.all (fun r => !r) = true
        ∧ ((execFapesqJob urls cancelAfter).trace.map JobExecution.status).all
            (fun st => !(st == "cancelled")) = true
        ∧ (execFapesqJob urls cancelAfter).db.status = "completed")
    ∧ (∀ (urls : List (String × PdfOutcome)) (cancelAfter : Option ℕ),
        (execParaibaGovJob urls cancelAfter).cancelRets.all (fun r => !r) = true
        ∧ ((execParaibaGovJob urls cancelAfter).trace.map JobExecution.status).all
            (fun st => !(st == "cancelled")) = true
        ∧ (execParaibaGovJob urls cancelAfter).db.status = "completed") := by
  refine ⟨?_, ?_, ?_⟩
  · intro s
    obtain ⟨d, t, m, f, r⟩ := s
    cases f <;> rfl
  · intro urls cancelAfter
    have h := execPdfJob_uncancelled "fapesq_scraping_manual" urls cancelAfter
    exact ⟨h.2.1, h.2.2.1, rfl⟩
  · intro urls cancelAfter
    have h := execPdfJob_uncancelled "paraiba_gov_scraping_manual" urls cancelAfter
    exact ⟨h.2.1, h.2.2.1, rfl⟩

/-! ## ChromaDB collection management (`chromadb_service.py`) -/

/-- A ChromaDB collection as `ChromaDBService` sees it: its metadata and
the ids of its entries.  Python collection metadata may be `None` or `{}`
(both falsy in the guard); both are modelled as `[]`. -/
structure ChromaCollection where
  metadata : List (String × String)
  docIds : List String
deriving DecidableEq

/-- The ChromaDB server state relevant to `_ensure_collection`: the
collection named `editais_chunks`, if one exists. -/
structure ChromaState where
  collection : Option ChromaCollection
deriving DecidableEq

/-- `metadata.get(key)`. -/
def metaGet (m : List (String × String)) (k : String) : Option String :=
  (m.find? (fun p => p.1 == k)).map (fun p => p.2)

/-- The metadata written by `create_collection` inside
`_ensure_collection`; the embedding model name is the hardcoded
`"text-embedding-3-small"` (the service takes no model parameter). -/
def freshCollectionMetadata : List (String × String) :=
  [("description", "Chunks de editais vetorizados"),
   ("embedding_model", "text-embedding-3-small"),
   ("embedding_provider", "OpenAI"),
   ("language", "pt-BR"),
   ("optimized_for", "technical documents in Portuguese")]

/-- `ChromaDBService._ensure_collection()`: if the collection exists,
its metadata is truthy, and it records `embedding_provider == "OpenAI"`,
reuse it; otherwise (wrong provider, falsy metadata, or no collection)
delete any existing collection and create a fresh empty one.  The
recorded `embedding_model` value is never compared. -/
def ensureCollection (st : ChromaState) : ChromaState :=
  match st.collection with
  | some c =>
      if c.metadata ≠ [] ∧ metaGet c.metadata "embedding_provider" = some "OpenAI"
      then st
      else { collection := some { metadata := freshCollectionMetadata, docIds := [] } }
  | none => { collection := some { metadata := freshCollectionMetadata, docIds := [] } }

/-- The `embedding_info["model"]` field of `ChromaDBService.get_stats()`:
`collection.metadata.get("embedding_model", "UNKNOWN")` when the metadata
is truthy, `"UNKNOWN"` otherwise. -/
def statsEmbeddingModel (st : ChromaState) : String :=
  match st.collection with
  | some c =>
      if c.metadata ≠ [] then (metaGet c.metadata "embedding_model").getD "UNKNOWN"
      else "UNKNOWN"
  | none => "UNKNOWN"

/-- `get_stats().total_chunks`: number of stored entries. -/
def statsTotalChunks (st : ChromaState) : ℕ :=
  match st.collection with
  | some c => c.docIds.length
  | none => 0

/-- A server state holding a collection built with provider `"OpenAI"`
but embedding model `"text-embedding-3-large"`, containing one entry. -/
def largeModelState : ChromaState :=
  { collection := some
      { metadata := [("embedding_provider", "OpenAI"),
                     ("embedding_model", "text-embedding-3-large")],
        docIds := ["x_chunk_1"] } }

/-- Claim C2 counterexample: a pre-existing collection recorded with
provider `"OpenAI"` but model `"text-embedding-3-large"` — different from
the configured `"text-embedding-3-small"` — is reused unchanged by
`_ensure_collection` (the guard only checks `embedding_provider`), its
entries survive, and `stats().embedding_info.model` afterwards reports the
stored `"text-embedding-3-large"`, not the configured model. -/
theorem claim_C2_embedding_guard_counterexample :
    ensureCollection largeModelState = largeModelState
    ∧ statsEmbeddingModel (ensureCollection largeModelState) = "text-embedding-3-large"
    ∧ statsTotalChunks (ensureCollection largeModelState) = 1
    ∧ "text-embedding-3-large" ≠ "text-embedding-3-small" := by
  refine ⟨by decide, by decide, by decide, by decide⟩

/-- Claim C2 (amended): the startup guard keys on the recorded
`embedding_provider`, not on the model name.  If the existing collection's
metadata is truthy and records provider `"OpenAI"`, it is reused unchanged
— even when its recorded model differs from the configured one.  Otherwise
(wrong or missing provider, falsy metadata, or no collection) it is
dropped and recreated empty before the first `add_chunk`, and
`stats().embedding_info.model` then equals the configured
`"text-embedding-3-small"`. -/
theorem claim_C2_embedding_guard_amended (st : ChromaState) :
    (∀ c, st.collection = some c →
      c.metadata ≠ [] → metaGet c.metadata "embedding_provider" = some "OpenAI" →
      ensureCollection st = st)
    ∧ (∀ c, st.collection = some c →
        ¬(c.metadata ≠ [] ∧ metaGet c.metadata "embedding_provider" = some "OpenAI") →
        ensureCollection st
          = { collection := some { metadata := freshCollectionMetadata, docIds := [] } }
        ∧ statsEmbeddingModel (ensureCollection st) = "text-embedding-3-small"
        ∧ statsTotalChunks (ensureCollection st) = 0)
    ∧ (st.collection = none →
        statsEmbeddingModel (ensureCollection st) = "text-embedding-3-small"
        ∧ statsTotalChunks (ensureCollection st) = 0) := by
  refine ⟨?_, ?_, ?_⟩
  · intro c hc hne hprov
    unfold ensureCollection
    rw [hc]
    show (if c.metadata ≠ [] ∧ metaGet c.metadata "embedding_provider" = some "OpenAI"
        then st
        else { collection := some { metadata := freshCollectionMetadata, docIds := [] } })
      = st
    rw [if_pos ⟨hne, hprov⟩]
  · intro c hc hcond
    have he : ensureCollection st
        = { collection := some { metadata := freshCollectionMetadata, docIds := [] } } := by
      unfold ensureCollection
      rw [hc]
      show (if c.metadata ≠ [] ∧ metaGet c.metadata "embedding_provider" = some "OpenAI"
          then st
          else { collection := some { metadata := freshCollectionMetadata, docIds := [] } })
        = { collection := some { metadata := freshCollectionMetadata, docIds := [] } }
      rw [if_neg hcond]
    exact ⟨he, by rw [he]; decide, by rw [he]; decide⟩
  · intro hc
    have he : ensureCollection st
        = { collection := some { metadata := freshCollectionMetadata, docIds := [] } } := by
      unfold ensureCollection
      rw [hc]
    exact ⟨by rw [he]; decide, by rw [he]; decide⟩

/-- Witness for Claim C2 (amended): the three cases of the theorem at
concrete server states. -/
theorem claim_C2_embedding_guard_amended_witness :
    ensureCollection
        { collection := some { metadata := freshCollectionMetadata, docIds := ["a_chunk_1"] } }
      = { collection := some { metadata := freshCollectionMetadata, docIds := ["a_chunk_1"] } }
    ∧ statsEmbeddingModel (ensureCollection
        { collection := some { metadata := [], docIds := ["a_chunk_1"] } })
      = "text-embedding-3-small"
    ∧ statsEmbeddingModel (ensureCollection { collection := none })
      = "text-embedding-3-small" :=
  ⟨(claim_C2_embedding_guard_amended _).1 _ rfl (by decide) (by decide),
   ((claim_C2_embedding_guard_amended _).2.1 _ rfl (by decide)).2.1,
   ((claim_C2_embedding_guard_amended _).2.2 rfl).1⟩

/-! ## FAPESQ date filtering (`fapesq_scraper_service.py`) -/

/-- A calendar date as produced by
`datetime.strptime(s, "%d/%m/%Y").date()`. -/
structure PyDate where
  year : ℕ
  month : ℕ
  day : ℕ
deriving DecidableEq

/-- Python `date` ordering: lexicographic on (year, month, day);
`PyDate.le a b` is `a <= b`. -/
def PyDate.le (a b : PyDate) : Bool :=
  if a.year ≠ b.year then decide (a.year < b.year)
  else if a.month ≠ b.month then decide (a.month < b.month)
  else decide (a.day ≤ b.day)

def isLeapYear (y : ℕ) : Bool :=
  (y % 4 == 0 && y % 100 != 0) || y % 400 == 0

def daysInMonth (y m : ℕ) : ℕ :=
  if m = 2 then (if isLeapYear y then 29 else 28)
  else if m = 4 ∨ m = 6 ∨ m = 9 ∨ m = 11 then 30
  else 31

/-- `FapesqScraperService._parse_date` via
`datetime.strptime(date_str, "%d/%m/%Y")`: the captured text always has
the dd/mm/yyyy digit shape, and `strptime` validates it as a calendar
date (month 1–12, day within the month, year ≥ 1), returning `None` —
caught by the bare `except` — otherwise. -/
def mkValidDate (d m y : ℕ) : Option PyDate :=
  if 1 ≤ y ∧ 1 ≤ m ∧ m ≤ 12 ∧ 1 ≤ d ∧ d ≤ daysInMonth y m then some ⟨y, m, d⟩ else none

def digitVal (c : Char) : ℕ := c.toNat - 48

/-- The regex fragment `\d{2}/\d{2}/\d{4}` anchored at the head of the
input: exactly two day digits, `/`, two month digits, `/`, four year
digits (Python `\d` also covers non-ASCII digits; the model uses ASCII).
Returns `(day, month, year)` and the rest of the input. -/
def matchDMY : List Char → Option ((ℕ × ℕ × ℕ) × List Char)
  | d1 :: d2 :: s1 :: m1 :: m2 :: s2 :: y1 :: y2 :: y3 :: y4 :: rest =>
      if d1.isDigit && d2.isDigit && s1 == '/' && m1.isDigit && m2.isDigit && s2 == '/'
          && y1.isDigit && y2.isDigit && y3.isDigit && y4.isDigit then
        some ((10 * digitVal d1 + digitVal d2,
               10 * digitVal m1 + digitVal m2,
               1000 * digitVal y1 + 100 * digitVal y2 + 10 * digitVal y3 + digitVal y4),
              rest)
      else none
  | _ => none

/-- Greedy `\s+` anchored at the head: at least one whitespace character,
then consume the whole run (no backtracking is ever needed because every
following token of the three patterns is a non-whitespace character). -/
def wsPlus : List Char → Option (List Char)
  | c :: rest => if isPySpace c then some (rest.dropWhile isPySpace) else none
  | [] => none

/-- Pattern 1, `até\s+(\d{2}/\d{2}/\d{4})`, anchored at the head
(`re.IGNORECASE`). -/
def matchP1At : List Char → Option (ℕ × ℕ × ℕ)
  | a :: t :: e :: rest =>
      if (a == 'a' || a == 'A') && (t == 't' || t == 'T') && (e == 'é' || e == 'É') then
        (wsPlus rest).bind (fun r => (matchDMY r).map (fun x => x.1))
      else none
  | _ => none

/-- The common tail `\s+a\s+(\d{2}/\d{2}/\d{4})` of patterns 2 and 3
(`re.IGNORECASE` makes the separator `a` or `A`). -/
def matchASep (s : List Char) : Option (ℕ × ℕ × ℕ) :=
  (wsPlus s).bind fun r =>
    match r with
    | c :: r2 =>
        if c == 'a' || c == 'A' then
          (wsPlus r2).bind (fun r3 => (matchDMY r3).map (fun x => x.1))
        else none
    | [] => none

/-- Pattern 2, `(\d{2}/\d{2}/\d{4})\s+a\s+(\d{2}/\d{2}/\d{4})`, anchored
at the head; `match.group(match.lastindex)` captures the second date. -/
def matchP2At (s : List Char) : Option (ℕ × ℕ × ℕ) :=
  (matchDMY s).bind fun x => matchASep x.2

/-- Pattern 3, `de\s+\d{1,2}\s+a\s+(\d{2}/\d{2}/\d{4})`, anchored at the
head.  The greedy `\d{1,2}` has one backtracking choice which resolves
deterministically: when a second digit is present, the one-digit
alternative would require `\s+` to match that digit and always fails. -/
def matchP3At : List Char → Option (ℕ × ℕ × ℕ)
  | d :: e :: rest =>
      if (d == 'd' || d == 'D') && (e == 'e' || e == 'E') then
        (wsPlus rest).bind fun r =>
          match r with
          | c1 :: tail =>
              if c1.isDigit then
                match tail with
                | c2 :: tail2 => if c2.isDigit then matchASep tail2 else matchASep tail
                | [] => none
              else none
          | [] => none
      else none
  | _ => none

/-- `re.search`: the leftmost position at which the anchored pattern
matches (none of the three patterns can match the empty suffix). -/
def scanFor (f : List Char → Option (ℕ × ℕ × ℕ)) : List Char → Option (ℕ × ℕ × ℕ)
  | [] => none
  | s@(_ :: rest) => (f s).orElse (fun _ => scanFor f rest)

def extractDeadlineP3 (desc : List Char) : Option PyDate :=
  match scanFor matchP3At desc with
  | some (d, m, y) => mkValidDate d m y
  | none => none

def extractDeadlineP2 (desc : List Char) : Option PyDate :=
  match scanFor matchP2At desc with
  | some (d, m, y) =>
      match mkValidDate d m y with
      | some dt => some dt
      | none => extractDeadlineP3 desc
  | none => extractDeadlineP3 desc

/-- `FapesqScraperService._extract_deadline_from_description`: try the
three patterns in order; for each, take the LEFTMOST match and parse its
last captured group with `_parse_date`; return the first valid date.  A
pattern whose leftmost match parses to an invalid date contributes
nothing (the code falls through to the next pattern, not to the next
match position). -/
def extractDeadline (desc : List Char) : Option PyDate :=
  match scanFor matchP1At desc with
  | some (d, m, y) =>
      match mkValidDate d m y with
      | some dt => some dt
      | none => extractDeadlineP2 desc
  | none => extractDeadlineP2 desc

/-- One listing row of the FAPESQ "editais abertos" page, reduced to the
fields the date filter reads. -/
structure FapesqRow where
  titulo : String
  descricao : List Char
deriving DecidableEq

/-- The admission decision of `scrape_fapesq_editais` for one parsed row
(lines 174–184): with `filter_by_date` on, the row is appended iff
`data_limite and data_limite >= today`. -/
def fapesqAdmits (filterByDate : Bool) (today : PyDate) (row : FapesqRow) : Bool :=
  if filterByDate then
    match extractDeadline row.descricao with
    | some dl => PyDate.le today dl
    | none => false
  else true

/-- The list returned by `scrape_fapesq_editais`: the parsed rows that
pass the admission decision, in page order. -/
def scrapeFapesqFilter (rows : List FapesqRow) (filterByDate : Bool) (today : PyDate) :
    List FapesqRow :=
  rows.filter (fapesqAdmits filterByDate today)

/-- Validation of the spec's own fixture (manual run at 2025-06-15):
"até 30/12/2025" extracts 2025-12-30 (admitted), "de 12 a 31/03/2025"
extracts 2025-03-31 (expired, excluded). -/
theorem extractDeadline_fixture :
    extractDeadline (lc "Inscrições até 30/12/2025") = some ⟨2025, 12, 30⟩
    ∧ extractDeadline (lc "de 12 a 31/03/2025") = some ⟨2025, 3, 31⟩
    ∧ PyDate.le ⟨2025, 6, 15⟩ ⟨2025, 12, 30⟩ = true
    ∧ PyDate.le ⟨2025, 6, 15⟩ ⟨2025, 3, 31⟩ = false := by
  refine ⟨by decide, by decide, by decide, by decide⟩

/-- Claim C3 counterexample: at 2025-06-15 with `filter_by_date=True`, a
row whose description yields no parsable date is EXCLUDED from the
returned list — the code treats "no deadline" like "expired"
(`data_limite and data_limite >= today` is falsy) and skips the row —
while the claim says such a row is included. -/
theorem claim_C3_date_filter_counterexample :
    extractDeadline (lc "Edital de fomento, inscrições abertas") = none
    ∧ scrapeFapesqFilter [⟨"Edital X", lc "Edital de fomento, inscrições abertas"⟩]
        true ⟨2025, 6, 15⟩ = [] := by
  refine ⟨by decide, by decide⟩

/-- Claim C3 (amended): with `filter_by_date=True` a row is admitted iff a
deadline could be extracted from its description AND that deadline is on
or after today — a row with no extractable date is excluded, not passed on
to the LLM stage.  With `filter_by_date=False` every row is returned. -/
theorem claim_C3_date_filter_amended (rows : List FapesqRow) (today : PyDate)
    (row : FapesqRow) :
    (row ∈ scrapeFapesqFilter rows true today ↔
      row ∈ rows
      ∧ ∃ dl, extractDeadline row.descricao = some dl ∧ PyDate.le today dl = true)
    ∧ scrapeFapesqFilter rows false today = rows := by
  constructor
  · rw [scrapeFapesqFilter, List.mem_filter]
    constructor
    · rintro ⟨hm, hf⟩
      refine ⟨hm, ?_⟩
      unfold fapesqAdmits at hf
      rw [if_pos rfl] at hf
      cases hdl : extractDeadline row.descricao with
      | some dl =>
        rw [hdl] at hf
        exact ⟨dl, rfl, hf⟩
      | none =>
        rw [hdl] at hf
        cases hf
    · rintro ⟨hm, dl, hdl, hle⟩
      refine ⟨hm, ?_⟩
      unfold fapesqAdmits
      rw [if_pos rfl, hdl]
      exact hle
  · unfold scrapeFapesqFilter fapesqAdmits
    simp

/-! ## Chat query expansion (`ChatService._expand_query`) -/

/-- Prefix test: does the needle (first argument) start the haystack? -/
def startsWith : List Char → List Char → Bool
  | [], _ => true
  | _ :: _, [] => false
  | a :: n1, b :: h1 => a == b && startsWith n1 h1

/-- Python `needle in hay` on strings: contiguous substring test. -/
def containsSub : List Char → List Char → Bool
  | n, [] => n.isEmpty
  | n, h :: t => startsWith n (h :: t) || containsSub n t

/-- Python `s.lower()`.  `Char.toLower` folds ASCII letters; the map's
keys and synonyms are already lowercase (accents included) and are fixed
points of it. -/
def pyLower (s : List Char) : List Char := s.map Char.toLower

/-- Python `s.split()`: split on whitespace runs, discarding empties;
`cur` holds the word being accumulated, reversed. -/
def splitAux : List Char → List Char → List (List Char)
  | cur, [] => if cur.isEmpty then [] else [cur.reverse]
  | cur, c :: t =>
      if isPySpace c then
        (if cur.isEmpty then splitAux [] t else cur.reverse :: splitAux [] t)
      else splitAux (c :: cur) t

def pySplitWs (s : List Char) : List (List Char) := splitAux [] s

/-- `" ".join(parts)`. -/
def joinSpace (parts : List (List Char)) : List Char := List.intercalate [' '] parts

/-- The static synonym map of `ChatService._expand_query`, in the Python
dict's insertion order. -/
def expansions : List (List Char × List Char) :=
  [(lc "prazo", lc "prazo data"),
   (lc "data", lc "data prazo"),
   (lc "submissao", lc "submissão candidatura"),
   (lc "submissão", lc "submissão candidatura"),
   (lc "candidatura", lc "candidatura submissão"),
   (lc "valor", lc "valor financiamento"),
   (lc "financiamento", lc "financiamento valor recurso"),
   (lc "requisito", lc "requisito critério"),
   (lc "documento", lc "documento anexo"),
   (lc "candidato", lc "candidato proponente"),
   (lc "resultado", lc "resultado divulgação"),
   (lc "contato", lc "contato email telefone"),
   (lc "duracao", lc "duração prazo período"),
   (lc "duração", lc "duração prazo período"),
   (lc "area", lc "área tema"),
   (lc "área", lc "área tema"),
   (lc "quando", lc "quando data"),
   (lc "quanto", lc "quanto valor"),
   (lc "cronograma", lc "cronograma data"),
   (lc "etapa", lc "etapa fase")]

/-- `expansions[term]` for a term that is a key of the map. -/
def expansionOf (term : List Char) : List Char :=
  ((expansions.find? (fun p => p.1 == term)).map (fun p => p.2)).getD []

/-- One iteration of the `for term in terms_to_expand[:2]` loop: keep only
synonyms not already in the lowered query, and append the first one. -/
def expandStep (queryLower : List Char) (acc : List (List Char)) (term : List Char) :
    List (List Char) :=
  match (pySplitWs (expansionOf term)).filter (fun w => !containsSub w queryLower) with
  | [] => acc
  | w :: _ => acc ++ [w]

/-- `ChatService._expand_query(user_message)`. -/
def expandQuery (msg : List Char) : List Char :=
  let queryLower := pyLower msg
  let termsToExpand :=
    (expansions.map (fun p => p.1)).filter (fun t => containsSub t queryLower)
  if 3 ≤ (pySplitWs msg).length then msg
  else joinSpace ((termsToExpand.take 2).foldl (expandStep queryLower) [msg])

/-- Every single word occurring in the synonym map's values. -/
def synonymPool : List (List Char) :=
  (expansions.map (fun p => pySplitWs p.2)).flatten

theorem synonymPool_lower_fixed :
    synonymPool.all (fun w => w.map Char.toLower == w) = true := by decide

theorem startsWith_lower (w : List Char) (hfix : w.map Char.toLower = w) :
    ∀ hay : List Char, startsWith w hay = true → startsWith w (hay.map Char.toLower) = true := by
  induction w with
  | nil =>
    intro hay _
    rfl
  | cons a w1 ih =>
    intro hay h
    cases hay with
    | nil => cases h
    | cons b t =>
      have hfix' := hfix
      simp only [List.map_cons, List.cons.injEq] at hfix'
      obtain ⟨hfa, hfw⟩ := hfix'
      rw [List.map_cons]
      simp only [startsWith, Bool.and_eq_true, beq_iff_eq] at h ⊢
      obtain ⟨hab, hrec⟩ := h
      constructor
      · rw [← hab]
        exact hfa.symm
      · exact ih hfw t hrec

theorem containsSub_lower (w : List Char) (hfix : w.map Char.toLower = w) :
    ∀ msg : List Char, containsSub w msg = true → containsSub w (pyLower msg) = true := by
  intro msg
  induction msg with
  | nil =>
    intro h
    exact h
  | cons c t ih =>
    intro h
    simp only [containsSub, Bool.or_eq_true] at h
    unfold pyLower
    rw [List.map_cons]
    simp only [containsSub, Bool.or_eq_true]
    rcases h with h | h
    · have := startsWith_lower w hfix (c :: t) h
      rw [List.map_cons] at this
      exact Or.inl this
    · exact Or.inr (ih h)

theorem expandStep_delta (queryLower : List Char) (acc : List (List Char)) (term : List Char) :
    expandStep queryLower acc term = acc
    ∨ ∃ w, expandStep queryLower acc term = acc ++ [w]
        ∧ w ∈ pySplitWs (expansionOf term) ∧ containsSub w queryLower = false := by
  unfold expandStep
  cases hs : (pySplitWs (expansionOf term)).filter (fun w => !containsSub w queryLower) with
  | nil => exact Or.inl rfl
  | cons w rest =>
    have hw : w ∈ (pySplitWs (expansionOf term)).filter (fun w => !containsSub w queryLower) :=
      hs ▸ List.mem_cons_self w rest
    have hmf := List.mem_filter.mp hw
    refine Or.inr ⟨w, rfl, hmf.1, ?_⟩
    simpa using hmf.2

theorem expandFold_delta (queryLower : List Char) :
    ∀ (terms : List (List Char)) (acc : List (List Char)),
      ∃ app, terms.foldl (expandStep queryLower) acc = acc ++ app
        ∧ app.length ≤ terms.length
        ∧ ∀ w ∈ app, (∃ t ∈ terms, w ∈ pySplitWs (expansionOf t))
            ∧ containsSub w queryLower = false := by
  intro terms
  induction terms with
  | nil =>
    intro acc
    exact ⟨[], by simp, by simp, by simp⟩
  | cons t rest ih =>
    intro acc
    rcases expandStep_delta queryLower acc t with h | ⟨w, hw, hmem, hnc⟩
    · obtain ⟨app, happ, hlen, hprop⟩ := ih (expandStep queryLower acc t)
      refine ⟨app, ?_, ?_, ?_⟩
      · rw [List.foldl_cons, happ, h]
      · exact le_trans hlen (by simp)
      · intro x hx
        obtain ⟨⟨t1, ht1, hmem1⟩, hnc1⟩ := hprop x hx
        exact ⟨⟨t1, List.mem_cons_of_mem _ ht1, hmem1⟩, hnc1⟩
    · obtain ⟨app, happ, hlen, hprop⟩ := ih (acc ++ [w])
      refine ⟨w :: app, ?_, ?_, ?_⟩
      · rw [List.foldl_cons, hw, happ, List.append_assoc]
        rfl
      · simp only [List.length_cons]
        omega
      · intro x hx
        rcases List.mem_cons.mp hx with hx | hx
        · subst hx
          exact ⟨⟨t, List.mem_cons_self _ _, hmem⟩, hnc⟩
        · obtain ⟨⟨t1, ht1, hmem1⟩, hnc1⟩ := hprop x hx
          exact ⟨⟨t1, List.mem_cons_of_mem _ ht1, hmem1⟩, hnc1⟩

theorem synonym_of_key_in_pool {w t : List Char}
    (ht : t ∈ expansions.map (fun p => p.1)) (hmem : w ∈ pySplitWs (expansionOf t)) :
    w ∈ synonymPool := by
  cases hfind : expansions.find? (fun p => p.1 == t) with
  | none =>
    exfalso
    obtain ⟨q, hq, hq1⟩ := List.mem_map.mp ht
    have hsome : (expansions.find? (fun p => p.1 == t)).isSome :=
      List.find?_isSome.mpr ⟨q, hq, by simp [hq1]⟩
    rw [hfind] at hsome
    cases hsome
  | some p =>
    have hp : p ∈ expansions := List.mem_of_find?_eq_some hfind
    have he : expansionOf t = p.2 := by
      unfold expansionOf
      rw [hfind]
      rfl
    rw [he] at hmem
    exact List.mem_flatten.mpr ⟨pySplitWs p.2, List.mem_map.mpr ⟨p, hp, rfl⟩, hmem⟩

/-- Claim C9: a user message of ≥3 whitespace-separated words is returned
unchanged by `_expand_query`; a shorter message becomes the original
message followed by at most two appended synonyms, each taken from the
static Portuguese synonym map and none occurring as a substring of the
original query (checked case-insensitively, and hence also literally). -/
theorem claim_C9_query_expansion (msg : List Char) :
    (3 ≤ (pySplitWs msg).length → expandQuery msg = msg)
    ∧ ((pySplitWs msg).length < 3 →
      ∃ app : List (List Char),
        expandQuery msg = joinSpace (msg :: app)
        ∧ app.length ≤ 2
        ∧ ∀ w ∈ app, w ∈ synonymPool
            ∧ containsSub w (pyLower msg) = false
            ∧ containsSub w msg = false) := by
  constructor
  · intro h
    unfold expandQuery
    rw [if_pos h]
  · intro h
    unfold expandQuery
    rw [if_neg (by omega)]
    obtain ⟨app, happ, hlen, hprop⟩ := expandFold_delta (pyLower msg)
      (((expansions.map (fun p => p.1)).filter
        (fun t => containsSub t (pyLower msg))).take 2) [msg]
    refine ⟨app, ?_, ?_, ?_⟩
    · rw [happ]
      rfl
    · refine le_trans hlen ?_
      rw [List.length_take]
      exact min_le_left _ _
    · intro w hw
      obtain ⟨⟨t, ht, hmem⟩, hnc⟩ := hprop w hw
      have ht3 : t ∈ expansions.map (fun p => p.1) :=
        (List.mem_filter.mp (List.mem_of_mem_take ht)).1
      have hpool : w ∈ synonymPool := synonym_of_key_in_pool ht3 hmem
      refine ⟨hpool, hnc, ?_⟩
      have hfix : w.map Char.toLower = w := by
        have := List.all_eq_true.mp synonymPool_lower_fixed w hpool
        simpa using this
      by_cases hc : containsSub w msg = true
      · exact absurd (containsSub_lower w hfix msg hc) (by simp [hnc])
      · simpa using hc

/-- Witness for Claim C9 at the spec's example: the one-word query
`"prazo"` expands to `"prazo data"`, with `"data"` the single appended
synonym. -/
theorem claim_C9_query_expansion_witness :
    (pySplitWs (lc "prazo")).length < 3
    ∧ expandQuery (lc "prazo") = lc "prazo data"
    ∧ (∃ app, expandQuery (lc "prazo") = joinSpace (lc "prazo" :: app)
        ∧ app.length ≤ 2
        ∧ ∀ w ∈ app, w ∈ synonymPool
            ∧ containsSub w (pyLower (lc "prazo")) = false
            ∧ containsSub w (lc "prazo") = false) :=
  ⟨by decide, by decide, (claim_C9_query_expansion (lc "prazo")).2 (by decide)⟩

/-! ## Progressive chunk extraction
(`OpenAIExtractorService.extract_variables_progressive` / `_extract_chunk`) -/

/-- Index of the first occurrence of the needle in the haystack
(Python `needle in hay` / leftmost `re.search` position). -/
def findSubPos (n : List Char) : List Char → Option ℕ
  | [] => if n.isEmpty then some 0 else none
  | h :: t => if startsWith n (h :: t) then some 0 else (findSubPos n t).map (· + 1)

/-- Python `hay.replace(needle, "")` for a non-empty needle: remove all
non-overlapping occurrences, scanning left to right.  `fuel` bounds the
number of steps; each step consumes at least one character, so the
haystack's length suffices. -/
def removeSubGo (n : List Char) : ℕ → List Char → List Char
  | 0, _ => []
  | _ + 1, [] => []
  | fuel + 1, h :: t =>
      if startsWith n (h :: t) then removeSubGo n fuel ((h :: t).drop n.length)
      else h :: removeSubGo n fuel t

/-- The markdown-fence cleanup of `_extract_chunk`: if `"```json"` occurs,
`re.search(r'```json\s*(.*?)\s*```', DOTALL)` captures the text between
the first `"```json"` and the next `"```"`, trimmed of surrounding
whitespace (then `.strip()`ped again, a no-op); with no closing fence the
response is left unchanged.  Otherwise, if `"```"` occurs anywhere, every
occurrence is removed and the result stripped. -/
def cleanFences (resposta : List Char) : List Char :=
  match findSubPos (lc "```json") resposta with
  | some i =>
      let after := resposta.drop (i + 7)
      match findSubPos (lc "```") after with
      | some j => pyStrip (after.take j)
      | none => resposta
  | none =>
      if (findSubPos (lc "```") resposta).isSome then
        pyStrip (removeSubGo (lc "```") resposta.length resposta)
      else resposta

/-- Parse a maximal run of decimal digits, returning (value, digit count,
rest). -/
def parseDigitsGo : ℕ → ℕ → List Char → ℕ × ℕ × List Char
  | acc, k, [] => (acc, k, [])
  | acc, k, c :: rest =>
      if c.isDigit then parseDigitsGo (10 * acc + digitVal c) (k + 1) rest
      else (acc, k, c :: rest)

def parseDigits : List Char → Option (ℕ × ℕ × List Char)
  | c :: rest => if c.isDigit then some (parseDigitsGo (digitVal c) 1 rest) else none
  | [] => none

/-- Body of a JSON string after the opening quote, up to the closing
quote.  Escape sequences are outside this model (none occur in the
schema's field names or the inputs considered). -/
def parseJsonStringBody : List Char → Option (List Char × List Char)
  | [] => none
  | '"' :: rest => some ([], rest)
  | '\\' :: _ => none
  | c :: rest => (parseJsonStringBody rest).map (fun x => (c :: x.1, x.2))

/-- A JSON number as (integer numerator, denominator): `12` ↦ (12, 1),
`12.5` ↦ (125, 10).  Exponent notation is outside this model. -/
def parseJsonNumberParts (s : List Char) : Option ((ℤ × ℕ) × List Char) :=
  match parseDigits s with
  | some (n, _, rest) =>
      match rest with
      | '.' :: rest2 =>
          match parseDigits rest2 with
          | some (f, k, rest3) => some ((((n * 10 ^ k + f : ℕ) : ℤ), 10 ^ k), rest3)
          | none => none
      | _ => some (((n : ℤ), 1), rest)
  | none => none

def skipWs (s : List Char) : List Char := s.dropWhile isPySpace

/-- A JSON scalar value: string, `true`/`false`/`null`, or number. -/
def parseJsonValue (s : List Char) : Option (PyValue × List Char) :=
  match s with
  | '"' :: rest => (parseJsonStringBody rest).map (fun x => (PyValue.str (String.mk x.1), x.2))
  | 't' :: 'r' :: 'u' :: 'e' :: rest => some (PyValue.bool true, rest)
  | 'f' :: 'a' :: 'l' :: 's' :: 'e' :: rest => some (PyValue.bool false, rest)
  | 'n' :: 'u' :: 'l' :: 'l' :: rest => some (PyValue.null, rest)
  | '-' :: rest =>
      (parseJsonNumberParts rest).map (fun x => (PyValue.num (mkRat (-x.1.1) x.1.2), x.2))
  | _ => (parseJsonNumberParts s).map (fun x => (PyValue.num (mkRat x.1.1 x.1.2), x.2))

/-- One `"key": value` pair, leading whitespace allowed. -/
def parseJsonPair (s : List Char) : Option ((String × PyValue) × List Char) :=
  match skipWs s with
  | '"' :: rest =>
      match parseJsonStringBody rest with
      | some (key, rest2) =>
          match skipWs rest2 with
          | ':' :: rest3 =>
              match parseJsonValue (skipWs rest3) with
              | some (v, rest4) => some ((String.mk key, v), rest4)
              | none => none
          | _ => none
      | none => none
  | _ => none

/-- Comma-separated pairs up to the closing `}`.  Each pair consumes at
least one character, so the input length bounds the recursion. -/
def parseJsonPairsGo : ℕ → List Char → Option (Obj × List Char)
  | 0, _ => none
  | fuel + 1, s =>
      match parseJsonPair s with
      | some (kv, rest) =>
          match skipWs rest with
          | ',' :: rest2 => (parseJsonPairsGo fuel rest2).map (fun x => (kv :: x.1, x.2))
          | '}' :: rest2 => some ([kv], rest2)
          | _ => none
      | none => none

/-- A minimal model of `json.loads` restricted to the flat objects the
extraction prompt mandates (one object with string/number/boolean/null
values): nested values, escape sequences and exponents are outside the
model.  Non-JSON text — e.g. a refusal sentence — fails, which is the
`json.JSONDecodeError` path of `_extract_chunk`.  The whole input must be
consumed, as `json.loads` requires. -/
def parseJson (s : List Char) : Option Obj :=
  match skipWs s with
  | '{' :: rest =>
      match skipWs rest with
      | '}' :: rest2 => if (skipWs rest2).isEmpty then some [] else none
      | _ =>
          match parseJsonPairsGo (s.length + 1) rest with
          | some (obj, rest2) => if (skipWs rest2).isEmpty then some obj else none
          | none => none
  | _ => none

/-- `for key, value in variables.items(): if isinstance(value, str) and
value.lower() == "null": variables[key] = None`. -/
def coerceNulls (o : Obj) : Obj :=
  o.map (fun kv =>
    match kv.2 with
    | PyValue.str s => if pyLower s.toList = lc "null" then (kv.1, PyValue.null) else kv
    | _ => kv)

/-- The placeholder `{erro: "resposta_invalida", raw: resposta_llm[:500]}`
returned by `_extract_chunk` on a JSON parse failure (over the cleaned
response text). -/
def placeholderOf (t : List Char) : Obj :=
  [("erro", PyValue.str "resposta_invalida"),
   ("raw", PyValue.str (String.mk ((cleanFences (pyStrip t)).take 500)))]

/-- The response handling of `_extract_chunk` after the LLM call returns:
strip, clean fences, parse JSON coercing `"null"` strings to `None`; on a
parse failure RETURN (not raise) the placeholder — so the caller's retry
loop treats it as a success and never retries it. -/
def parseChunkResponse (respostaRaw : List Char) : Obj :=
  match parseJson (cleanFences (pyStrip respostaRaw)) with
  | some vars => coerceNulls vars
  | none => placeholderOf respostaRaw

/-- One LLM attempt inside `_extract_chunk`: the API returns a response
text, or the call raises (transport error). -/
inductive LLMEvent where
  | reply (text : List Char)
  | raiseExn
deriving DecidableEq

/-- Observable effects of one `extract_variables_progressive` run, driven
by a script of per-attempt LLM outcomes. -/
structure ExtState where
  events : List LLMEvent
  savedChunks : List (ℕ × Obj)
  chromaAdds : List (ℕ × List Char)
  acc : Obj
  finalCommit : Option Obj
deriving DecidableEq

/-- The `while retry_count <= max_retries and not success` loop for the
chunk with 1-based index `i`: `attemptsLeft` counts the retries still
allowed (`max_retries` on entry).  A returned dict (parsed variables or
placeholder) is saved via `save_partial_extraction`, vectorized via
`add_chunk` with the same index, and merged into the accumulator.  An
exception consumes a retry; when none remain the chunk is skipped with
nothing recorded.  An exhausted script behaves like a transport failure. -/
def chunkAttempts (i : ℕ) (chunk : List Char) : ℕ → ExtState → ExtState
  | attemptsLeft, st =>
    match st.events with
    | LLMEvent.reply text :: rest =>
        let vars := parseChunkResponse text
        { st with
            events := rest,
            savedChunks := st.savedChunks ++ [(i, vars)],
            chromaAdds := st.chromaAdds ++ [(i, chunk)],
            acc := mergeVariables st.acc vars }
    | LLMEvent.raiseExn :: rest =>
        match attemptsLeft with
        | 0 => { st with events := rest }
        | k + 1 => chunkAttempts i chunk k { st with events := rest }
    | [] => st

/-- The `for i, chunk in enumerate(chunks, 1)` loop. -/
def chunksLoop (maxRetries : ℕ) : List (ℕ × List Char) → ExtState → ExtState
  | [], st => st
  | (i, chunk) :: rest, st => chunksLoop maxRetries rest (chunkAttempts i chunk maxRetries st)

/-- `OpenAIExtractorService.extract_variables_progressive(text,
edital_uuid, pdf_url)` with the default `max_retries = 1`: chunk the text
(S=3000, O=300), seed the accumulator with `link` and `uuid`, process the
chunks, then force `link`/`uuid` back in and write the final commit with
`status="completed"` — unconditionally, whatever happened per chunk. -/
def extractVariablesProgressive (text : List Char) (editalUuid pdfUrl : String)
    (script : List LLMEvent) : ExtState :=
  let chunks := chunkText text 3000 300
  let indexed := List.zip (List.range' 1 chunks.length) chunks
  let st0 : ExtState :=
    { events := script, savedChunks := [], chromaAdds := [],
      acc := [("link", PyValue.str pdfUrl), ("uuid", PyValue.str editalUuid)],
      finalCommit := none }
  let st1 := chunksLoop 1 indexed st0
  let finalVars :=
    dictSet (dictSet st1.acc "link" (PyValue.str pdfUrl)) "uuid" (PyValue.str editalUuid)
  { st1 with acc := finalVars, finalCommit := some finalVars }

theorem parseChunkResponse_fail (t : List Char)
    (h : parseJson (cleanFences (pyStrip t)) = none) :
    parseChunkResponse t = placeholderOf t := by
  unfold parseChunkResponse
  rw [h]

/-- Validation: a fenced valid reply is unfenced and parsed, and a string
value `"null"` is coerced to `None` (the spec's fence boundary case). -/
theorem parseChunkResponse_fixture :
    parseChunkResponse (lc "```json\n\x7b\"apelido_edital\": \"Edital 1/2025\", \"custeio\": true, \"financiador_2\": \"null\"\x7d\n```")
      = [("apelido_edital", PyValue.str "Edital 1/2025"),
         ("custeio", PyValue.bool true),
         ("financiador_2", PyValue.null)] := by decide

/-- Claim C6 counterexample: a one-chunk edital whose two LLM attempts
(max_retries=1) both raise transport errors.  After the retries are
exhausted the chunk is skipped with NOTHING recorded — no placeholder
`{erro: "resposta_invalida", raw: ...}` is saved for it — although the
extraction does continue and writes the final commit. -/
theorem claim_C6_retry_counterexample :
    (extractVariablesProgressive (lc "abc") "u1" "p1"
        [LLMEvent.raiseExn, LLMEvent.raiseExn]).savedChunks = []
    ∧ (extractVariablesProgressive (lc "abc") "u1" "p1"
        [LLMEvent.raiseExn, LLMEvent.raiseExn]).events = []
    ∧ (extractVariablesProgressive (lc "abc") "u1" "p1"
        [LLMEvent.raiseExn, LLMEvent.raiseExn]).finalCommit.isSome = true := by
  refine ⟨by decide, by decide, by decide⟩

/-- Claim C6 (amended): (a) an LLM reply that fails to parse is NOT
retried — `_extract_chunk` returns the placeholder, which is recorded for
the chunk on that same attempt and processing moves on; (b) a transport
error consumes one retry while any remain (so it is retried once with the
default `max_retries = 1`); (c) once retries are exhausted the chunk is
skipped with nothing recorded for it; (d) no per-chunk failure ever aborts
the edital: the final commit is always written, with the accumulator as
the consolidated variables. -/
theorem claim_C6_retry_amended :
    (∀ (i k : ℕ) (chunk t : List Char) (st : ExtState) (es : List LLMEvent),
      st.events = LLMEvent.reply t :: es →
      parseJson (cleanFences (pyStrip t)) = none →
      chunkAttempts i chunk k st
        = { st with
              events := es,
              savedChunks := st.savedChunks ++ [(i, placeholderOf t)],
              chromaAdds := st.chromaAdds ++ [(i, chunk)],
              acc := mergeVariables st.acc (placeholderOf t) })
    ∧ (∀ (i k : ℕ) (chunk : List Char) (st : ExtState) (es : List LLMEvent),
        st.events = LLMEvent.raiseExn :: es →
        chunkAttempts i chunk (k + 1) st = chunkAttempts i chunk k { st with events := es })
    ∧ (∀ (i : ℕ) (chunk : List Char) (st : ExtState) (es : List LLMEvent),
        st.events = LLMEvent.raiseExn :: es →
        chunkAttempts i chunk 0 st = { st with events := es })
    ∧ (∀ (text : List Char) (u p : String) (script : List LLMEvent),
        (extractVariablesProgressive text u p script).finalCommit
          = some (extractVariablesProgressive text u p script).acc) := by
  refine ⟨?_, ?_, ?_, ?_⟩
  · intro i k chunk t st es hev hparse
    obtain ⟨ev, sc, ca, ac, fc⟩ := st
    replace hev : ev = LLMEvent.reply t :: es := hev
    subst hev
    rw [← parseChunkResponse_fail t hparse]
    conv_lhs => rw [chunkAttempts]
  · intro i k chunk st es hev
    obtain ⟨ev, sc, ca, ac, fc⟩ := st
    replace hev : ev = LLMEvent.raiseExn :: es := hev
    subst hev
    conv_lhs => rw [chunkAttempts]
  · intro i chunk st es hev
    obtain ⟨ev, sc, ca, ac, fc⟩ := st
    replace hev : ev = LLMEvent.raiseExn :: es := hev
    subst hev
    conv_lhs => rw [chunkAttempts]
  · intro text u p script
    rfl

/-- Witness for Claim C6 (amended): a one-chunk run whose single reply is
the non-JSON text `"not json"` records the placeholder immediately (one
attempt consumed, no retry) and reaches the final commit. -/
theorem claim_C6_retry_amended_witness :
    (⟨[LLMEvent.reply (lc "not json")], [], [], [], none⟩ : ExtState).events
      = LLMEvent.reply (lc "not json") :: []
    ∧ parseJson (cleanFences (pyStrip (lc "not json"))) = none
    ∧ chunkAttempts 1 (lc "abc") 1 ⟨[LLMEvent.reply (lc "not json")], [], [], [], none⟩
        = { events := [],
            savedChunks := [(1, placeholderOf (lc "not json"))],
            chromaAdds := [(1, lc "abc")],
            acc := mergeVariables [] (placeholderOf (lc "not json")),
            finalCommit := none }
    ∧ (extractVariablesProgressive (lc "abc") "u1" "p1"
        [LLMEvent.reply (lc "not json")]).finalCommit
      = some (extractVariablesProgressive (lc "abc") "u1" "p1"
          [LLMEvent.reply (lc "not json")]).acc :=
  ⟨rfl, by decide,
   claim_C6_retry_amended.1 1 1 (lc "abc") (lc "not json") _ [] rfl (by decide),
   claim_C6_retry_amended.2.2.2 (lc "abc") "u1" "p1" [LLMEvent.reply (lc "not json")]⟩

end GoFomentos
